import Mathlib

/-!
Shallow embedding of the analysis pipeline of the `sre-copilot` repository:

* the free-text completion parser of `src/services/bedrock_service.py`
  (`BedrockService.analyze_text`, lines 90-177),
* the log pattern / correlation analyzer of `src/agents/log_analyzer.py`,
* the metric anomaly / trend analyzer of `src/agents/metric_analyzer.py`,
* the report assembly of `src/agents/incident_analyzer.py` and the pydantic
  models of `src/models/incident.py`.

Strings are modelled as `List Char` internally (Python `str` values over the
ASCII inputs the pipeline handles), wrapped into Lean `String` at record
boundaries.  Python floats are modelled as exact rationals `ℚ` (idealizing
IEEE-754 arithmetic); where the source compares `abs(x) > 3*std` with
`std = sqrt(var)`, the embedding compares squares, which is equivalent for
exact arithmetic since both sides are nonnegative.
-/

/-! ## Python string primitives -/

/-- The whitespace characters recognized by Python's `str.strip()` (ASCII). -/
def isPyWs (c : Char) : Bool :=
  c = ' ' || c = '\t' || c = '\n' || c = '\x0d' || c = '\x0b' || c = '\x0c'

/-- Python `s.lstrip()` on char lists. -/
def pyLstripWs (l : List Char) : List Char := l.dropWhile isPyWs

/-- Python `s.strip()` on char lists: drop whitespace from both ends. -/
def pyStripWs (l : List Char) : List Char :=
  ((l.dropWhile isPyWs).reverse.dropWhile isPyWs).reverse

/-- Python `s.strip(chars)` on char lists: drop the given characters from both ends. -/
def pyStripChars (cs : List Char) (l : List Char) : List Char :=
  ((l.dropWhile (· ∈ cs)).reverse.dropWhile (· ∈ cs)).reverse

/-- Python `s.rstrip(chars)` on char lists: drop the given characters from the right end. -/
def pyRstripChars (cs : List Char) (l : List Char) : List Char :=
  (l.reverse.dropWhile (· ∈ cs)).reverse

/-- Split a char list on every occurrence of a single separator character,
Python `s.split(sep)` for a one-character separator. -/
def splitChar (sep : Char) : List Char → List (List Char)
  | [] => [[]]
  | c :: rest =>
    if c = sep then
      [] :: splitChar sep rest
    else
      match splitChar sep rest with
      | [] => [[c]]
      | seg :: segs => (c :: seg) :: segs

/-- Worker for `pySplit`: scans left to right, cutting at every non-overlapping
occurrence of `sep`.  `fuel` bounds the recursion (callers pass the input
length, which suffices for a non-empty separator). -/
def pySplitGo (sep : List Char) : Nat → List Char → List (List Char)
  | _, [] => [[]]
  | 0, s => [s]
  | Nat.succ fuel, c :: rest =>
    if sep.isPrefixOf (c :: rest) then
      [] :: pySplitGo sep fuel (List.drop sep.length (c :: rest))
    else
      match pySplitGo sep fuel rest with
      | [] => [[c]]
      | seg :: segs => (c :: seg) :: segs

/-- Python `s.split(sep)` for a non-empty separator `sep`: split on every
non-overlapping occurrence, scanning left to right. -/
def pySplit (sep s : List Char) : List (List Char) :=
  pySplitGo sep s.length s

/-- Python's substring test `needle in hay` (for the non-empty needles used by
the parser): `split` produces at least two parts iff the needle occurs. -/
def strContainsL (needle hay : List Char) : Bool :=
  match pySplit needle hay with
  | _ :: _ :: _ => true
  | _ => false

/-- Python `s.startswith("-")`. -/
def startsDash (l : List Char) : Bool :=
  match l with
  | '-' :: _ => true
  | _ => false

/-- Numeric value of a run of decimal digit characters. -/
def digitsToNat (ds : List Char) : Nat :=
  ds.foldl (fun a c => 10 * a + (c.toNat - '0'.toNat)) 0

/-- Model of Python `float(s)` on an already-whitespace-stripped string, as an
exact rational.  Core grammar: optional sign, decimal digits with an optional
fractional part, optional exponent part (`e`/`E`, optional sign, digits);
at least one digit must be present in the mantissa and nothing may follow.
(The `inf`/`nan` words and digit-group underscores accepted by CPython are
outside the inputs this parser meets and are not modelled; the exact-rational
value idealizes IEEE-754 rounding.)  Returns `none` where Python raises
`ValueError`. -/
def pyFloat (s : List Char) : Option ℚ :=
  let sgnSplit : ℚ × List Char :=
    match s with
    | '+' :: r => (1, r)
    | '-' :: r => (-1, r)
    | _ => (1, s)
  let sgn := sgnSplit.1
  let s1 := sgnSplit.2
  let ip := s1.takeWhile Char.isDigit
  let r1 := s1.dropWhile Char.isDigit
  let fracSplit : List Char × List Char :=
    match r1 with
    | '.' :: r => (r.takeWhile Char.isDigit, r.dropWhile Char.isDigit)
    | _ => ([], r1)
  let fp := fracSplit.1
  let r2 := fracSplit.2
  if ip.isEmpty && fp.isEmpty then none
  else
    let mant : ℚ := (digitsToNat ip : ℚ) + (digitsToNat fp : ℚ) / ((10 : ℚ) ^ fp.length)
    match r2 with
    | [] => some (sgn * mant)
    | e :: r3 =>
      if e = 'e' || e = 'E' then
        let esgnSplit : Bool × List Char :=
          match r3 with
          | '+' :: r => (true, r)
          | '-' :: r => (false, r)
          | _ => (true, r3)
        let ed := esgnSplit.2.takeWhile Char.isDigit
        let r5 := esgnSplit.2.dropWhile Char.isDigit
        if ed.isEmpty || !r5.isEmpty then none
        else
          let p : ℚ := (10 : ℚ) ^ digitsToNat ed
          some (sgn * (if esgnSplit.1 then mant * p else mant / p))
      else none

/-! ## The completion parser (`BedrockService.analyze_text`, lines 90-177)

`analyze_text` initializes a result dictionary with eight default fields,
splits the completion on blank lines (`completion.split('\n\n')`), and runs a
single-pass state machine over the blocks with a `current_section` variable.
-/

/-- The values of the `current_section` state variable of the parser
(`None` is modelled as `Option.none`). -/
inductive CSection where
  | root_cause
  | impact
  | findings
  | recommendations
deriving DecidableEq, Repr

/-- The result dictionary built by `analyze_text`: its eight keys with their
default values (empty string / `0.0` / empty list). -/
structure ParseResult where
  root_cause : String
  root_cause_confidence : ℚ
  root_cause_evidence : List String
  impact_analysis : String
  impact_confidence : ℚ
  impact_evidence : List String
  key_findings : List String
  recommendations : List String
deriving DecidableEq, Repr

/-- The initial result dictionary of `analyze_text` (lines 92-101). -/
def defaultParseResult : ParseResult :=
  { root_cause := ""
    root_cause_confidence := 0
    root_cause_evidence := []
    impact_analysis := ""
    impact_confidence := 0
    impact_evidence := []
    key_findings := []
    recommendations := [] }

/-- Parser state: the result dictionary built so far plus `current_section`. -/
structure ParserState where
  result : ParseResult
  cur : Option CSection
deriving DecidableEq, Repr

/-- The parser's start state: default result, `current_section = None`. -/
def initParserState : ParserState := ⟨defaultParseResult, none⟩

def tagRootCause : String := "1. Root Cause Analysis:"
def tagImpact : String := "2. Impact Analysis:"
def tagFindings : String := "3. Key Findings:"
def tagRecs : String := "4. Recommendations:"
def tagConfidence : String := "Confidence:"
def tagEvidence : String := "Evidence:"

/-- `lines = [line.strip() for line in section.split('\n') if line.strip()]`. -/
def strippedLines (b : List Char) : List (List Char) :=
  ((splitChar '\n' b).map pyStripWs).filter (fun l => !l.isEmpty)

/-- `line.strip("- ").strip()` applied to a bulleted line. -/
def cleanBullet (l : List Char) : String :=
  String.mk (pyStripWs (pyStripChars ['-', ' '] l))

/-- `[line.strip("- ").strip() for line in ls if line.startswith("-")]`. -/
def bulletsOf (ls : List (List Char)) : List String :=
  (ls.filter startsDash).map cleanBullet

/-- The body of the confidence branch after the `[1]` index into
`first_line.split("Confidence:")` has succeeded (lines 143-153): strip the
percentage string, parse it with `float`, divide by 100, and assign it to the
current section's confidence when that section is `root_cause` or `impact`;
a `ValueError` from `float` is caught and logged, leaving the value in
place. -/
def confApply (st : ParserState) (s1 : List Char) : ParserState :=
  let confidence_str := pyRstripChars ['%'] (pyStripWs s1)
  match pyFloat confidence_str with
  | some v =>
    let confidence := v / 100
    if st.cur = some CSection.root_cause then
      { st with result := { st.result with root_cause_confidence := confidence } }
    else if st.cur = some CSection.impact then
      { st with result := { st.result with impact_confidence := confidence } }
    else st
  | none => st

/-- One iteration of the `for section in sections` loop of `analyze_text`
(lines 107-166), acting on one blank-line-separated block. -/
def processBlockL (st : ParserState) (b : List Char) : ParserState :=
  match strippedLines b with
  | [] => st
  | fl :: restLines =>
    if strContainsL tagRootCause.toList fl then
      { cur := some CSection.root_cause
        result :=
          match restLines with
          | l1 :: _ => { st.result with root_cause := String.mk l1 }
          | [] => st.result }
    else if strContainsL tagImpact.toList fl then
      { cur := some CSection.impact
        result :=
          match restLines with
          | l1 :: _ => { st.result with impact_analysis := String.mk l1 }
          | [] => st.result }
    else if strContainsL tagFindings.toList fl then
      { cur := some CSection.findings
        result := { st.result with key_findings := bulletsOf restLines } }
    else if strContainsL tagRecs.toList fl then
      { cur := some CSection.recommendations
        result := { st.result with recommendations := bulletsOf restLines } }
    else if strContainsL tagConfidence.toList fl then
      match pySplit tagConfidence.toList fl with
      | _ :: s1 :: _ => confApply st s1
      | _ => st
    else if strContainsL tagEvidence.toList fl then st
    else if (st.cur = some CSection.root_cause ∨ st.cur = some CSection.impact)
        ∧ startsDash fl then
      let evidence := bulletsOf (fl :: restLines)
      if st.cur = some CSection.root_cause then
        { st with result := { st.result with root_cause_evidence := evidence } }
      else
        { st with result := { st.result with impact_evidence := evidence } }
    else st

/-- Exceptions-as-`Except` variant of `processBlockL`.  The only operation in
the loop body that can raise outside a `try` is the `[1]` index into
`first_line.split("Confidence:")` (an `IndexError` when the list is shorter,
which the preceding `in` test rules out); the `float` conversion failure is
caught by the inner `try/except ValueError` and modelled by `pyFloat = none`. -/
def processBlockLE (st : ParserState) (b : List Char) : Except String ParserState :=
  match strippedLines b with
  | [] => Except.ok st
  | fl :: restLines =>
    if strContainsL tagRootCause.toList fl then
      Except.ok
        { cur := some CSection.root_cause
          result :=
            match restLines with
            | l1 :: _ => { st.result with root_cause := String.mk l1 }
            | [] => st.result }
    else if strContainsL tagImpact.toList fl then
      Except.ok
        { cur := some CSection.impact
          result :=
            match restLines with
            | l1 :: _ => { st.result with impact_analysis := String.mk l1 }
            | [] => st.result }
    else if strContainsL tagFindings.toList fl then
      Except.ok
        { cur := some CSection.findings
          result := { st.result with key_findings := bulletsOf restLines } }
    else if strContainsL tagRecs.toList fl then
      Except.ok
        { cur := some CSection.recommendations
          result := { st.result with recommendations := bulletsOf restLines } }
    else if strContainsL tagConfidence.toList fl then
      match pySplit tagConfidence.toList fl with
      | _ :: s1 :: _ => Except.ok (confApply st s1)
      | _ => Except.error "IndexError: list index out of range"
    else if strContainsL tagEvidence.toList fl then Except.ok st
    else if (st.cur = some CSection.root_cause ∨ st.cur = some CSection.impact)
        ∧ startsDash fl then
      let evidence := bulletsOf (fl :: restLines)
      if st.cur = some CSection.root_cause then
        Except.ok { st with result := { st.result with root_cause_evidence := evidence } }
      else
        Except.ok { st with result := { st.result with impact_evidence := evidence } }
    else Except.ok st

/-- The blocks of a completion: `completion.split('\n\n')`. -/
def blocksOf (cs : List Char) : List (List Char) :=
  pySplit ['\n', '\n'] cs

/-- The whole parsing loop of `analyze_text` as a total function. -/
def parseCompletionL (cs : List Char) : ParseResult :=
  ((blocksOf cs).foldl processBlockL initParserState).result

/-- `analyze_text`'s parsing of a completion string. -/
def parseCompletion (s : String) : ParseResult :=
  parseCompletionL s.toList

/-- The parsing loop with Python exception semantics: an uncaught exception in
the loop aborts the whole parse (and `analyze_text` would then return its
error payload). -/
def parseCompletionE (s : String) : Except String ParseResult := do
  let st ← (blocksOf s.toList).foldlM processBlockLE initParserState
  pure st.result

/-! ## The metric analyzer (`src/agents/metric_analyzer.py`)

`MetricAnalyzer.analyze` builds `df = pd.DataFrame(metrics)` from the metric
records `{name, value, timestamp, tags}` and calls `_detect_anomalies(df)` and
`_analyze_trends(df)`.  Both iterate over
`df.select_dtypes(include=[np.number]).columns`; with the record shape above
the single numeric column is `"value"`, so each loop body runs exactly once,
over the values of all rows pooled together.  A row is modelled by its
series name and numeric value (the non-numeric `timestamp`/`tags` columns
play no part in either function). -/

/-- One row of the metrics DataFrame: series name and numeric value. -/
structure MetricRow where
  name : String
  value : ℚ
deriving DecidableEq, Repr

/-- The single numeric column of the metrics DataFrame. -/
def valueColName : String := "value"

/-- The pooled value column, in input row order. -/
def valuesOf (rows : List MetricRow) : List ℚ :=
  rows.map MetricRow.value

/-- `df[column].mean()`. -/
def listMean (l : List ℚ) : ℚ := l.sum / (l.length : ℚ)

/-- The square of `df[column].std()` (pandas sample standard deviation,
`ddof=1`).  The standard deviation itself is an irrational square root in
general; the embedding keeps its square and compares squares below, which is
equivalent for exact arithmetic.  For a single row pandas yields `NaN`
(division by `0`) and every `NaN` comparison is false; here `0/0 = 0` makes
the anomaly comparison false as well, matching that behaviour. -/
def sampleVarOf (l : List ℚ) : ℚ :=
  (l.map (fun v => (v - listMean l) ^ 2)).sum / ((l.length - 1 : ℕ) : ℚ)

/-- `abs(value - mean) > 3 * std`, compared with both sides squared. -/
def anomalyCond (m v2 v : ℚ) : Bool :=
  decide ((v - m) ^ 2 > 9 * v2)

/-- One entry of the list built by `_detect_anomalies` (lines 55-79): the dict
`{"metric": column, "anomaly_indices": ..., "values": ..., "mean": ...,
"std": ...}`.  `var` holds the square of the stored `std`. -/
structure AnomalyRec where
  metric : String
  anomaly_indices : List Nat
  values : List ℚ
  mean : ℚ
  var : ℚ
deriving DecidableEq, Repr

/-- `_detect_anomalies` (lines 55-79): for the one numeric column `"value"`,
compute the pooled mean and std over all rows, mask the rows deviating by
more than three standard deviations, and emit one record (with the DataFrame
row indices of the masked rows) when the mask is non-empty. -/
def detectAnomalies (rows : List MetricRow) : List AnomalyRec :=
  let vs := valuesOf rows
  let m := listMean vs
  let v2 := sampleVarOf vs
  let idx := (List.range vs.length).filter fun i => anomalyCond m v2 (vs.getD i 0)
  if idx.isEmpty then []
  else [{ metric := valueColName
          anomaly_indices := idx
          values := idx.map (vs.getD · 0)
          mean := m
          var := v2 }]

/-- `x = np.arange(len(df))` as rationals. -/
def idxColumn (n : Nat) : List ℚ :=
  (List.range n).map (fun i => (i : ℚ))

/-- `Σ (x_i - mean x)(y_i - mean y)` over the index/value columns. -/
def sxyOf (ys : List ℚ) : ℚ :=
  let xs := idxColumn ys.length
  ((xs.zip ys).map fun p => (p.1 - listMean xs) * (p.2 - listMean ys)).sum

/-- `Σ (x_i - mean x)^2` over the index column. -/
def sxxOf (ys : List ℚ) : ℚ :=
  let xs := idxColumn ys.length
  (xs.map fun x => (x - listMean xs) ^ 2).sum

/-- The ordinary least-squares slope of value against row index: the slope
`np.polyfit(np.arange(n), ys, 1)` computes on the inputs where the fit is
well-posed, i.e. at least two rows, where the index column has nonzero spread
(`sxxOf ≠ 0`).  The degenerate inputs, on which `np.polyfit` raises instead
of producing a line, are screened out by `polyfitDeg1`, through which this
closed form is consulted. -/
def olsSlope (ys : List ℚ) : ℚ := sxyOf ys / sxxOf ys

/-- The intercept of the same least-squares line. -/
def olsIntercept (ys : List ℚ) : ℚ :=
  listMean ys - olsSlope ys * listMean (idxColumn ys.length)

def dirIncreasing : String := "increasing"
def dirDecreasing : String := "decreasing"

/-- One entry of the list built by `_analyze_trends` (lines 81-103). -/
structure TrendRec where
  metric : String
  direction : String
  slope : ℚ
  intercept : ℚ
  strength : ℚ
deriving DecidableEq, Repr

/-- The message of the `LinAlgError` that `numpy.linalg.lstsq` raises when the
scaled design matrix contains NaN. -/
def linAlgErrMsg : String := "LinAlgError: SVD did not converge in Linear Least Squares"

/-- The message of the `TypeError` that `np.polyfit` raises on an empty x. -/
def emptyVecErrMsg : String := "TypeError: expected non-empty vector for x"

/-- `np.polyfit(np.arange(n), ys, 1)` with its failure modes.  `polyfit`
normalizes each Vandermonde column by its Euclidean norm
(`lhs /= sqrt((lhs*lhs).sum(axis=0))`); on a single row the index column is
`[0]` with norm `0`, the division turns the column into NaN, and the
underlying `lstsq` raises
`LinAlgError("SVD did not converge in Linear Least Squares")`; on an empty
frame `polyfit` rejects the empty vector outright.  Only inputs with at
least two rows yield a `(slope, intercept)` pair — the ordinary
least-squares solution, since `np.arange(n)` then has distinct entries. -/
def polyfitDeg1 (ys : List ℚ) : Except String (ℚ × ℚ) :=
  match ys with
  | [] => Except.error emptyVecErrMsg
  | [_] => Except.error linAlgErrMsg
  | _ :: _ :: _ => Except.ok (olsSlope ys, olsIntercept ys)

/-- `_analyze_trends` (lines 81-103): one fitted line per numeric column —
hence exactly one, for the pooled `"value"` column — with
`direction = "increasing" if slope > 0 else "decreasing"` and
`strength = abs(slope)`.  The `np.polyfit` call at line 90 is unguarded: on
a one-row frame (reachable, since the caller `analyze` only early-returns on
empty `metrics`) it raises `LinAlgError`, which propagates out of the
method, so the embedding is `Except`-valued. -/
def analyzeTrendsE (rows : List MetricRow) : Except String (List TrendRec) :=
  match polyfitDeg1 (valuesOf rows) with
  | Except.error e => Except.error e
  | Except.ok fit =>
      Except.ok [{ metric := valueColName
                   direction := if fit.1 > 0 then dirIncreasing else dirDecreasing
                   slope := fit.1
                   intercept := fit.2
                   strength := |fit.1| }]

/-! ## The log analyzer: error patterns (`src/agents/log_analyzer.py`, lines 55-86)

`_analyze_error_patterns` scans each log string with the regular expression
`(ERROR|FATAL|CRITICAL|FAILED).*?:(.*?)(?:\n|$)` (no word boundaries), counts
the stripped captured messages with a `Counter`, and emits the groups in
`most_common()` order — a stable sort descending by count over the counter's
first-seen key order — each carrying the level of the message's first
occurrence. -/

def wordERROR : List Char := ('E' :: "RROR".toList)
def wordFATAL : List Char := "FATAL".toList
def wordCRITICAL : List Char := "CRITICAL".toList
def wordFAILED : List Char := "FAILED".toList

/-- The alternation `(ERROR|FATAL|CRITICAL|FAILED)`, in source order. -/
def levelWords : List (List Char) := [wordERROR, wordFATAL, wordCRITICAL, wordFAILED]

/-- Match `p` as a prefix of `s` and return the remainder, else `none`. -/
def dropPre : List Char → List Char → Option (List Char)
  | [], s => some s
  | _, [] => none
  | p :: ps, c :: cs => if p = c then dropPre ps cs else none

/-- Try the level alternation at the current position, first alternative
first, returning the matched word and the remainder. -/
def tryWordsAt (s : List Char) : Option (List Char × List Char) :=
  match dropPre wordERROR s with
  | some r => some (wordERROR, r)
  | none =>
    match dropPre wordFATAL s with
    | some r => some (wordFATAL, r)
    | none =>
      match dropPre wordCRITICAL s with
      | some r => some (wordCRITICAL, r)
      | none =>
        match dropPre wordFAILED s with
        | some r => some (wordFAILED, r)
        | none => none

/-- The lazy `.*?:`: the remainder after the first `:` (dot does not cross
newlines, and callers work on newline-free segments), or `none` if there is
no colon, in which case the regex engine abandons this start position. -/
def afterColon : List Char → Option (List Char)
  | [] => none
  | c :: cs => if c = ':' then some cs else afterColon cs

/-- One extracted `{"level": ..., "message": ...}` entry (lines 70-73). -/
structure ErrRecord where
  level : String
  message : String
deriving DecidableEq, Repr

/-- Leftmost regex match within one newline-free segment: scan start
positions left to right; at each, try the level alternation and then
require a colon later in the segment; group 2 runs to the end of the
segment. -/
def segMatchGo : List Char → Option (List Char × List Char)
  | [] => none
  | c :: cs =>
    match tryWordsAt (c :: cs) with
    | some (w, rest) =>
      match afterColon rest with
      | some after => some (w, after)
      | none => segMatchGo cs
    | none => segMatchGo cs

/-- The extracted record of one segment, message stripped (line 72). -/
def segMatch (seg : List Char) : Option ErrRecord :=
  (segMatchGo seg).map fun p => ⟨String.mk p.1, String.mk (pyStripWs p.2)⟩

/-- `error_pattern.finditer(log)` over one log string: the `(?:\n|$)`
terminator confines every match to one newline-separated piece and consumes
the newline, so the matches are the per-piece leftmost matches. -/
def extractFromLog (l : String) : List ErrRecord :=
  (splitChar '\n' l.toList).filterMap segMatch

/-- The full `error_messages` list (lines 66-73), in scan order. -/
def extractErrors (logs : List String) : List ErrRecord :=
  logs.flatMap extractFromLog

/-- `Counter(...)[m]`: occurrences of message `m`. -/
def msgCount (ms : List ErrRecord) (m : String) : Nat :=
  ms.countP fun r => r.message == m

/-- `next(msg["level"] for msg in error_messages if msg["message"] == m)`:
the level of the first occurrence of `m`. -/
def firstLevelOf (ms : List ErrRecord) (m : String) : String :=
  ((ms.find? fun r => r.message == m).map ErrRecord.level).getD ""

/-- The distinct elements of a list in first-seen order — the key order of a
Python `Counter`/`dict` built by insertion. -/
def firstSeen : List String → List String
  | [] => []
  | a :: l => a :: (firstSeen l).filter (· ≠ a)

/-- One entry of the `error_patterns` output list (lines 80-84). -/
structure ErrorPattern where
  message : String
  frequency : Nat
  level : String
deriving DecidableEq, Repr

/-- The counter groups in first-seen key order, before sorting. -/
def groupRecs (ms : List ErrRecord) : List ErrorPattern :=
  (firstSeen (ms.map ErrRecord.message)).map fun m =>
    ⟨m, msgCount ms m, firstLevelOf ms m⟩

/-- Stable descending insertion by `frequency`: the element passes items of
strictly greater frequency and stops before the first item of smaller or
equal frequency, so equal-frequency items keep their relative order. -/
def insertByFreq (x : ErrorPattern) : List ErrorPattern → List ErrorPattern
  | [] => [x]
  | y :: ys => if x.frequency < y.frequency then y :: insertByFreq x ys else x :: y :: ys

/-- Stable sort descending by `frequency`; `Counter.most_common()` is
`sorted(items, key=count, reverse=True)` with a stable sort, and any stable
descending sort produces the same list. -/
def sortByFreq (l : List ErrorPattern) : List ErrorPattern :=
  l.foldr insertByFreq []

/-- `_analyze_error_patterns` (lines 55-86). -/
def analyzeErrorPatterns (logs : List String) : List ErrorPattern :=
  let ms := extractErrors logs
  if ms.isEmpty then [] else sortByFreq (groupRecs ms)

/-! ## The log analyzer: correlations (lines 88-149)

`_analyze_correlations` extracts the first `\d{4}-\d{2}-\d{2}T\d{2}:\d{2}:\d{2}`
match of each log string, parses it with `datetime.fromisoformat` (skipping
the entry on failure), sorts the surviving events by timestamp, and scans all
ordered pairs `(i, j)` with `i < j`, emitting a correlation whenever the time
difference is at most 300 seconds and `_are_events_related` holds on the two
events' full content strings. -/

/-- A character class of the timestamp regex: a digit or a literal. -/
inductive TsCls where
  | dig
  | lit (c : Char)

/-- `\d{4}-\d{2}-\d{2}T\d{2}:\d{2}:\d{2}` as a list of character classes. -/
def tsPattern : List TsCls :=
  [TsCls.dig, TsCls.dig, TsCls.dig, TsCls.dig, TsCls.lit '-',
   TsCls.dig, TsCls.dig, TsCls.lit '-', TsCls.dig, TsCls.dig, TsCls.lit 'T',
   TsCls.dig, TsCls.dig, TsCls.lit ':', TsCls.dig, TsCls.dig, TsCls.lit ':',
   TsCls.dig, TsCls.dig]

def matchesCls (c : Char) : TsCls → Bool
  | TsCls.dig => c.isDigit
  | TsCls.lit x => c = x

/-- Try the 19-character timestamp pattern at the current position. -/
def matchTsAt (cs : List Char) : Option (List Char) :=
  let cand := cs.take 19
  if cand.length = 19 && (cand.zip tsPattern).all fun p => matchesCls p.1 p.2 then
    some cand
  else none

/-- `timestamp_pattern.search(log)`: the leftmost match. -/
def searchTs : List Char → Option (List Char)
  | [] => none
  | c :: cs =>
    match matchTsAt (c :: cs) with
    | some t => some t
    | none => searchTs cs

def isLeapYear (y : Nat) : Bool :=
  (y % 4 == 0 && y % 100 != 0) || y % 400 == 0

def daysInMonth (y m : Nat) : Nat :=
  if m = 2 then (if isLeapYear y then 29 else 28)
  else if m = 4 || m = 6 || m = 9 || m = 11 then 30
  else 31

/-- Days in the months before month `m` of year `y`. -/
def daysBeforeMonth (y m : Nat) : Nat :=
  ((List.range (m - 1)).map fun i => daysInMonth y (i + 1)).sum

/-- Proleptic Gregorian day number of a date (0 for 0001-01-01), as used by
`datetime.toordinal`. -/
def dayNumber (y m d : Nat) : Nat :=
  365 * (y - 1) + (y - 1) / 4 - (y - 1) / 100 + (y - 1) / 400 + daysBeforeMonth y m + (d - 1)

/-- `datetime.fromisoformat` on the 19 matched characters: validates the
field ranges (raising `ValueError` → `none` otherwise) and yields the instant
as seconds on the proleptic Gregorian axis; subtraction of two such values is
exactly `timedelta.total_seconds()` of the datetime difference. -/
def parseIsoChars (t : List Char) : Option Int :=
  let y := digitsToNat (t.take 4)
  let mo := digitsToNat ((t.drop 5).take 2)
  let d := digitsToNat ((t.drop 8).take 2)
  let h := digitsToNat ((t.drop 11).take 2)
  let mi := digitsToNat ((t.drop 14).take 2)
  let s := digitsToNat ((t.drop 17).take 2)
  if 1 ≤ y ∧ 1 ≤ mo ∧ mo ≤ 12 ∧ 1 ≤ d ∧ d ≤ daysInMonth y mo ∧ h ≤ 23 ∧ mi ≤ 59 ∧ s ≤ 59 then
    some ((dayNumber y mo d : Int) * 86400 + h * 3600 + mi * 60 + s)
  else none

/-- One entry of the `events` list (lines 104-107): parsed timestamp and the
whole log string as content. -/
structure LogEvent where
  ts : Int
  content : String
deriving DecidableEq, Repr

/-- Timestamp extraction for one log string (lines 98-110): first regex
match, then `fromisoformat`; unparsable entries are skipped. -/
def parseEvent (log : String) : Option LogEvent :=
  (searchTs log.toList).bind fun t => (parseIsoChars t).map fun n => ⟨n, log⟩

/-- Stable ascending insertion by timestamp. -/
def insertByTs (x : LogEvent) : List LogEvent → List LogEvent
  | [] => [x]
  | y :: ys => if y.ts < x.ts then y :: insertByTs x ys else x :: y :: ys

/-- `events.sort(key=lambda x: x["timestamp"])` — Python's sort is stable,
and any stable ascending sort produces the same list. -/
def sortEventsByTs (l : List LogEvent) : List LogEvent :=
  l.foldr insertByTs []

/-- `\w` (ASCII): letters, digits, underscore. -/
def isWordChar (c : Char) : Bool := c.isAlphanum || c = '_'

/-- Worker for `wordTokens`: maximal runs of word characters; `acc` holds the
current run reversed. -/
def tokensAux : List Char → List Char → List (List Char)
  | acc, [] => if acc.isEmpty then [] else [acc.reverse]
  | acc, c :: rest =>
    if isWordChar c then tokensAux (c :: acc) rest
    else if acc.isEmpty then tokensAux [] rest
    else acc.reverse :: tokensAux [] rest

/-- `re.findall(r"\b\w+\b", s.lower())`: the maximal word-character runs of
the lowercased string. -/
def wordTokens (s : String) : List String :=
  (tokensAux [] (s.toList.map Char.toLower)).map String.mk

/-- `set(re.findall(r"\b\w+\b", s.lower()))`. -/
def tokenFinset (s : String) : Finset String :=
  (wordTokens s).toFinset

/-- `_are_events_related` (lines 133-149): Jaccard similarity of the two
full content strings' token sets, strictly above `0.3`, with an empty union
never related. -/
def areEventsRelated (a b : String) : Bool :=
  let t1 := tokenFinset a
  let t2 := tokenFinset b
  let inter := (t1 ∩ t2).card
  let uni := (t1 ∪ t2).card
  if uni = 0 then false
  else decide ((inter : ℚ) / (uni : ℚ) > 3 / 10)

/-- One entry of the `correlations` output list (lines 123-129); the two
timestamps are kept as instants (the source renders them back with
`isoformat()`). -/
structure CorrRec where
  event1 : String
  event2 : String
  time_diff : Int
  timestamp1 : Int
  timestamp2 : Int
deriving DecidableEq, Repr

def mkCorr (e f : LogEvent) : CorrRec :=
  ⟨e.content, f.content, f.ts - e.ts, e.ts, f.ts⟩

/-- The pair condition of the inner loop (lines 119-122): time difference at
most the 300-second window, then content relatedness. -/
def pairCond (e f : LogEvent) : Bool :=
  (f.ts - e.ts ≤ 300 : Bool) && areEventsRelated e.content f.content

/-- The inner loop over the events after `e`. -/
def corrWith (e : LogEvent) : List LogEvent → List CorrRec
  | [] => []
  | f :: rest => (if pairCond e f then [mkCorr e f] else []) ++ corrWith e rest

/-- The double loop over ordered pairs `(i, j)`, `i < j` (lines 117-129). -/
def corrPairs : List LogEvent → List CorrRec
  | [] => []
  | e :: rest => corrWith e rest ++ corrPairs rest

/-- `_analyze_correlations` (lines 88-131). -/
def analyzeCorrelations (logs : List String) : List CorrRec :=
  corrPairs (sortEventsByTs (logs.filterMap parseEvent))

/-! ## Models (`src/models/incident.py`) and engine wrappers -/

/-- `AnalysisInsight`: description, confidence, evidence. -/
structure AnalysisInsight where
  description : String
  confidence : ℚ
  evidence : List String
deriving DecidableEq, Repr

/-- A `Log` entry as rendered by `LogAnalyzer.analyze` (line 27-30): the
timestamp is kept in its `isoformat()` rendering, which is all the analyzer
uses. -/
structure LogRecord where
  ts_iso : String
  level : String
  source : String
  message : String
deriving DecidableEq, Repr

/-- `f"{log.timestamp.isoformat()} [{log.level}] {log.source}: {log.message}"`. -/
def renderLog (l : LogRecord) : String :=
  l.ts_iso ++ " [" ++ l.level ++ "] " ++ l.source ++ ": " ++ l.message

/-- The two dictionary shapes `BedrockService.analyze_text` can return: the
parsed eight-field result (lines 92-169), or — when an exception escapes the
parsing block — the error payload `{"error": ..., "raw_completion": ...}`
(lines 174-177), recognized by callers via `"error" in analysis_result`. -/
inductive BedrockOutcome where
  | parsed (r : ParseResult)
  | errorPayload (errMsg : String) (raw_completion : String)
deriving DecidableEq, Repr

/-- `bedrock_analysis.get("insights", [])` (log_analyzer line 46 and
metric_analyzer line 46): neither shape of `analyze_text`'s return value
carries an `"insights"` key — the parsed dictionary has exactly the eight
parse fields and the error payload has `"error"`/`"raw_completion"` — so the
`.get` default `[]` is taken in both cases. -/
def bedrockInsights : BedrockOutcome → List AnalysisInsight
  | _ => []

/-- `LogAnalysis`: insights plus the two structured lists. -/
structure LogAnalysis where
  insights : List AnalysisInsight
  error_patterns : List ErrorPattern
  correlation_events : List CorrRec
deriving DecidableEq, Repr

/-- `MetricAnalysis`: insights plus the two structured lists. -/
structure MetricAnalysis where
  insights : List AnalysisInsight
  anomalies : List AnomalyRec
  trends : List TrendRec
deriving DecidableEq, Repr

/-- `LogAnalyzer.analyze` (lines 15-53), with the collaborator round trip
abstracted into the `bed` argument: empty input short-circuits to an empty
result; otherwise the two pure analyses run on the rendered log strings and
the insights are extracted from the collaborator payload.  The body contains
no error check and no `raise`, so every path returns (`Except.ok`); an
`Except` codomain makes that absence of a fatal path expressible. -/
def logAnalyze (logs : List LogRecord) (bed : BedrockOutcome) : Except String LogAnalysis :=
  if logs.isEmpty then
    Except.ok ⟨[], [], []⟩
  else
    Except.ok
      ⟨bedrockInsights bed,
       analyzeErrorPatterns (logs.map renderLog),
       analyzeCorrelations (logs.map renderLog)⟩

/-- `MetricAnalyzer.analyze` (lines 11-53), same shape except that the
unguarded trend fit can raise: the empty-metrics early return, otherwise
anomaly detection followed by `_analyze_trends`, whose `LinAlgError` on a
one-row frame propagates out of `analyze`. -/
def metricAnalyze (rows : List MetricRow) (bed : BedrockOutcome) : Except String MetricAnalysis :=
  if rows.isEmpty then
    Except.ok ⟨[], [], []⟩
  else
    match analyzeTrendsE rows with
    | Except.error e => Except.error e
    | Except.ok trends =>
        Except.ok ⟨bedrockInsights bed, detectAnomalies rows, trends⟩

/-- The `IncidentAnalysis` pydantic model (`src/models/incident.py`,
lines 34-41), with exactly its declared fields: `incident_id`, `root_cause`,
`impact_analysis`, `metric_insights`, `log_insights`, `recommendations`,
`timestamp`.  No `key_findings` field is declared.  Instants are modelled as
naturals. -/
structure IncidentAnalysis where
  incident_id : String
  root_cause : AnalysisInsight
  impact_analysis : AnalysisInsight
  metric_insights : List AnalysisInsight
  log_insights : List AnalysisInsight
  recommendations : List String
  timestamp : Nat
deriving DecidableEq, Repr

/-- The class-level default of the `timestamp` field:
`timestamp: datetime = datetime.now()` evaluates `datetime.now()` once, when
the class body runs at module import, and pydantic reuses that value for
every construction that omits `timestamp`. -/
def incidentAnalysisTimestampDefault (importTime : Nat) : Nat := importTime

/-- The keyword arguments passed to the `IncidentAnalysis(...)` constructor
call at `src/agents/incident_analyzer.py` lines 96-104 — including the
`key_findings` argument passed there. -/
structure IncidentAnalysisArgs where
  incident_id : String
  root_cause : AnalysisInsight
  impact_analysis : AnalysisInsight
  metric_insights : List AnalysisInsight
  log_insights : List AnalysisInsight
  key_findings : List String
  recommendations : List String
deriving DecidableEq, Repr

/-- Pydantic's constructor under its default configuration (`extra` ignored,
both v1 and v2): keyword arguments are matched against the declared fields of
`IncidentAnalysis` and any argument without a matching field — here
`key_findings` — is silently dropped; the omitted `timestamp` takes the
class-level default.  `constructionTime` is the clock at the moment of the
call; the default expression is not re-evaluated, so it is unused. -/
def pydanticMkIncidentAnalysis (importTime constructionTime : Nat)
    (a : IncidentAnalysisArgs) : IncidentAnalysis :=
  { incident_id := a.incident_id
    root_cause := a.root_cause
    impact_analysis := a.impact_analysis
    metric_insights := a.metric_insights
    log_insights := a.log_insights
    recommendations := a.recommendations
    timestamp := incidentAnalysisTimestampDefault importTime }

def failMsgPre : String := "Failed to analyze incident: "

/-- The post-collaborator part of `IncidentAnalyzer.analyze`
(`src/agents/incident_analyzer.py`, lines 66-104): an error payload raises
`Exception(f"Failed to analyze incident: {analysis_result['error']}")`
(line 71; the raw completion is only logged); otherwise the insights are
assembled from the parse-result fields — every `.get` key is present in the
parsed dictionary, so no `.get` default is taken — and passed to the
`IncidentAnalysis` constructor together with `key_findings`. -/
def incidentAnalyzeStep (incident_id : String) (importTime constructionTime : Nat)
    (res : BedrockOutcome) : Except String IncidentAnalysis :=
  match res with
  | BedrockOutcome.errorPayload errMsg _raw =>
    Except.error (failMsgPre ++ errMsg)
  | BedrockOutcome.parsed r =>
    Except.ok (pydanticMkIncidentAnalysis importTime constructionTime
      { incident_id := incident_id
        root_cause := ⟨r.root_cause, r.root_cause_confidence, r.root_cause_evidence⟩
        impact_analysis := ⟨r.impact_analysis, r.impact_confidence, r.impact_evidence⟩
        metric_insights := []
        log_insights := []
        key_findings := r.key_findings
        recommendations := r.recommendations })

/-! ## Concrete inputs used by the claim checks -/

deriving instance DecidableEq for Except

/-- A completion whose confidence percentage exceeds 100. -/
def c1Input : String := "1. Root Cause Analysis:\n\nConfidence: 250%"

/-- A findings section whose second bullet sits in a separate block. -/
def c5Input : String := "3. Key Findings:\n- a\n\n- b"

/-- Two series: a constant series `a` (eleven samples) and a lone extreme
sample in series `b`. -/
def c2Rows : List MetricRow :=
  [⟨"a", 0⟩, ⟨"a", 0⟩, ⟨"a", 0⟩, ⟨"a", 0⟩, ⟨"a", 0⟩, ⟨"a", 0⟩,
   ⟨"a", 0⟩, ⟨"a", 0⟩, ⟨"a", 0⟩, ⟨"a", 0⟩, ⟨"a", 0⟩, ⟨"b", 100⟩]

/-- Two interleaved series: `a` rises `0, 1` while `b` falls `5, 4`. -/
def c7Rows : List MetricRow := [⟨"a", 0⟩, ⟨"a", 1⟩, ⟨"b", 5⟩, ⟨"b", 4⟩]

/-- The single-series example `[1, 2, 3, 4, 5]`. -/
def c7FiveRows : List MetricRow := [⟨"m", 1⟩, ⟨"m", 2⟩, ⟨"m", 3⟩, ⟨"m", 4⟩, ⟨"m", 5⟩]

def c6Msg1 : String := "alpha"
def c6Msg2 : String := "beta"

/-- Rendered log lines one second apart whose message vocabularies are
disjoint. -/
def c6Log1 : String := "2024-01-01T10:00:00 [ERROR] db: " ++ c6Msg1
def c6Log2 : String := "2024-01-01T10:00:01 [ERROR] db: " ++ c6Msg2

/-- A one-entry log list for exercising the collaborator path. -/
def c4Logs : List LogRecord := [⟨"2024-01-01T10:00:00", "INFO", "app", "started"⟩]

def c4Err : String := "Failed to parse response: unexpected format"
def c4Raw : String := "raw completion text"

/-- A completion with no recognizable section headers. -/
def c9NoHeaderInput : String := "Some unrelated text.\n\nAnother paragraph."

/-- A parse result whose `key_findings` list is non-empty. -/
def c3ResA : ParseResult :=
  { defaultParseResult with
      root_cause := "Connection pool exhausted"
      key_findings := ["Database connection pool exhausted"]
      recommendations := ["Increase pool size"] }

/-- The same parse result with `key_findings` emptied. -/
def c3ResB : ParseResult := { c3ResA with key_findings := [] }

/-- Log lines for the error-pattern checks: a repeated error, a critical
message, an info line, and two distinct tied messages. -/
def c8DemoLogs : List String :=
  ["2024-01-01T10:00:00 [ERROR] db: connection failed",
   "2024-01-01T10:00:02 [CRITICAL] app: out of memory",
   "2024-01-01T10:00:03 [ERROR] db: connection failed",
   "2024-01-01T10:00:04 [INFO] app: started"]

/-- True when none of the six recognizers of the parser fires on the block's
first stripped line (such a block falls through the whole `if`/`elif` chain up
to the evidence-bullet branch). -/
def blockUntriggered (b : List Char) : Bool :=
  match strippedLines b with
  | [] => true
  | fl :: _ =>
    !(strContainsL tagRootCause.toList fl || strContainsL tagImpact.toList fl ||
      strContainsL tagFindings.toList fl || strContainsL tagRecs.toList fl ||
      strContainsL tagConfidence.toList fl || strContainsL tagEvidence.toList fl)

/-- No block of the completion triggers any recognizer. -/
def noTriggers (s : String) : Bool :=
  (blocksOf s.toList).all blockUntriggered

/-- The single-line block `Confidence: <digits>%`. -/
def confBlockOf (ds : List Char) : List Char :=
  tagConfidence.toList ++ ' ' :: (ds ++ ['%'])

/-- A confidence line whose percentage is not numeric. -/
def confBadBlock : String := "Confidence: [Number]%"

/-- A findings header block carrying two bullets of its own. -/
def c5HeaderBlock : String := "3. Key Findings:\n- a\n- b"

/-- A lone bulleted block (no recognizer fires on it). -/
def c5LooseBullet : String := "- b"

/-- A parser state in the `findings` section with findings already captured. -/
def c5MidState : ParserState :=
  ⟨{ defaultParseResult with key_findings := ["a"] }, some CSection.findings⟩

def dummyAnomaly : AnomalyRec := ⟨"", [], [], 0, 0⟩

def dummyEvent : LogEvent := ⟨0, ""⟩

def c6Event1 : LogEvent := (parseEvent c6Log1).getD dummyEvent

def c6Event2 : LogEvent := (parseEvent c6Log2).getD dummyEvent

def c6WitnessCorr : CorrRec := mkCorr c6Event1 c6Event2

/-! ## Claim checks: closed counterexamples and evaluations

The rational operations of Batteries are `@[irreducible]`; evaluation inside
this file's proofs needs them unfolded. -/

section ClaimChecks

attribute [local semireducible] Rat.mul Rat.add Rat.inv Rat.sub

/-- C1 (counterexample): for the completion `"1. Root Cause Analysis:"`
followed by `"Confidence: 250%"`, the parser stores confidence `250/100 =
5/2`, a value outside `[0, 1]` — `float(confidence_str) / 100.0` at
`src/services/bedrock_service.py:145` is not clamped, refuting "any N yields
a value in [0,1]". -/
theorem C1_confidence_counterexample :
    (parseCompletion c1Input).root_cause_confidence = 5 / 2
    ∧ ¬((parseCompletion c1Input).root_cause_confidence ≤ 1) := by
  decide

/-- C5 (counterexample): in `"3. Key Findings:\n- a\n\n- b"` the bullet
`"- b"` sits in a later blank-line-separated block while the current section
is `findings`; the parser keeps only `["a"]`, not `["a", "b"]` — bulleted
blocks after the header's own block are ignored
(`src/services/bedrock_service.py:129-139, 159-166`). -/
theorem C5_bullets_counterexample :
    (parseCompletion c5Input).key_findings = ["a"]
    ∧ (parseCompletion c5Input).key_findings ≠ ["a", "b"] := by
  decide

/-- C2 (counterexample): on two series `a` (eleven samples, all `0`) and `b`
(one sample, `100`), `_detect_anomalies` emits a single record named by the
DataFrame column `"value"` — not by any `series_name` of the input — whose
index `11` is the position in the whole pooled input, with mean `25/3` and
variance `2500/3` computed over all twelve samples together.  Per-series
statistics would flag nothing (`a` is constant, `b` has one sample). -/
theorem C2_anomalies_counterexample :
    detectAnomalies c2Rows
      = [{ metric := valueColName, anomaly_indices := [11], values := [100],
           mean := 25 / 3, var := 2500 / 3 }]
    ∧ valueColName ∉ c2Rows.map MetricRow.name := by
  decide

/-- C7 (counterexample): on the interleaved series `a = [0, 1]` (rising) and
`b = [5, 4]` (falling), `_analyze_trends` emits exactly one trend — for the
pooled `"value"` column, slope `8/5`, direction `"increasing"` — and no
record for series `b` with direction `"decreasing"` as the per-series claim
would require; and far from skipping a series with fewer than two samples
without error, a one-sample input makes the unguarded `np.polyfit` raise
`LinAlgError`. -/
theorem C7_trend_counterexample :
    analyzeTrendsE c7Rows
      = Except.ok
          [{ metric := valueColName, direction := dirIncreasing, slope := 8 / 5,
             intercept := 1 / 10, strength := 8 / 5 }]
    ∧ (∀ t ∈ (analyzeTrendsE c7Rows).toOption.getD [], ¬(t.direction = dirDecreasing))
    ∧ analyzeTrendsE [⟨"b", 5⟩] = Except.error linAlgErrMsg := by
  decide

/-- C6 (counterexample): the messages `"alpha"` and `"beta"` have disjoint
word sets, yet the two rendered entries one second apart are correlated:
`_are_events_related` tokenizes the whole rendered line, and the shared
timestamp/level/source tokens push the Jaccard similarity to `3/4 > 0.3`
(`src/agents/log_analyzer.py:133-149`). -/
theorem C6_related_counterexample :
    (tokenFinset c6Msg1 ∩ tokenFinset c6Msg2) = ∅
    ∧ (analyzeCorrelations [c6Log1, c6Log2]).length = 1
    ∧ (∀ r ∈ analyzeCorrelations [c6Log1, c6Log2],
        r.event1 = c6Log1 ∧ r.event2 = c6Log2 ∧ r.time_diff = 1) := by
  decide

/-- C4 (counterexample): fed an explicit error payload, `LogAnalyzer.analyze`
does not raise: it extracts no insights from the payload and returns an
ordinary `LogAnalysis` (here with empty pattern/correlation lists as well),
so the payload is not treated as fatal (`src/agents/log_analyzer.py:37-53`
contains no check of the `"error"` key). -/
theorem C4_error_payload_counterexample :
    logAnalyze c4Logs (BedrockOutcome.errorPayload c4Err c4Raw)
      = Except.ok ⟨[], [], []⟩ := by
  decide

/-- C3 (code bug): `IncidentAnalyzer.analyze` passes
`key_findings=key_findings` to the `IncidentAnalysis` constructor
(`src/agents/incident_analyzer.py:102`, commented "Added key_findings to the
return value"), but the model declares no such field
(`src/models/incident.py:34-41`), so pydantic silently drops it: two parse
results that differ exactly in their non-empty vs. empty `key_findings`
yield identical reports, and the report carries no findings list. -/
theorem C3_key_findings_dropped :
    c3ResA.key_findings = ["Database connection pool exhausted"]
    ∧ c3ResB.key_findings = []
    ∧ c3ResA.key_findings ≠ c3ResB.key_findings
    ∧ incidentAnalyzeStep "INC-1" 1700000000 1700009999 (BedrockOutcome.parsed c3ResA)
        = incidentAnalyzeStep "INC-1" 1700000000 1700009999 (BedrockOutcome.parsed c3ResB) := by
  decide

/-- C10: the `timestamp` default of `IncidentAnalysis` is the single
`datetime.now()` value computed when the class body was executed at module
load (`src/models/incident.py:41`); any two values constructed without an
explicit timestamp therefore share one timestamp, equal to the import-time
instant, regardless of their construction times — the report's timestamp
does not record when that analysis was generated. -/
theorem C10_shared_default_timestamp :
    ∀ (importTime t1 t2 : Nat) (a1 a2 : IncidentAnalysisArgs),
      (pydanticMkIncidentAnalysis importTime t1 a1).timestamp
        = (pydanticMkIncidentAnalysis importTime t2 a2).timestamp
      ∧ (pydanticMkIncidentAnalysis importTime t1 a1).timestamp = importTime := by
  intro importTime t1 t2 a1 a2
  exact ⟨rfl, rfl⟩

/-! ## Helper lemmas on the string primitives -/

theorem isPrefixOf_append_self (l t : List Char) : l.isPrefixOf (l ++ t) = true := by
  induction l with
  | nil => simp
  | cons c cs ih => simp [List.isPrefixOf_cons₂, ih]

theorem mem_of_isPrefixOf {l : List Char} :
    ∀ {s : List Char}, l.isPrefixOf s = true → ∀ c ∈ l, c ∈ s := by
  induction l with
  | nil => intro s _ c hc; cases hc
  | cons a as ih =>
    intro s h c hc
    cases s with
    | nil => exact absurd h (by simp)
    | cons b bs =>
      simp only [List.isPrefixOf_cons₂, Bool.and_eq_true, beq_iff_eq] at h
      rcases List.mem_cons.mp hc with rfl | hmem
      · exact h.1 ▸ List.mem_cons_self _ _
      · exact List.mem_cons_of_mem _ (ih h.2 c hmem)

theorem pySplitGo_no_occ {k : Char} {sep : List Char} (hk : k ∈ sep) :
    ∀ (fuel : Nat) (s : List Char), k ∉ s → pySplitGo sep fuel s = [s] := by
  intro fuel
  induction fuel with
  | zero =>
    intro s _
    cases s with
    | nil => rfl
    | cons c rest => rfl
  | succ fuel ih =>
    intro s hs
    cases s with
    | nil => rfl
    | cons c rest =>
      have hpre : sep.isPrefixOf (c :: rest) = false := by
        by_contra hcon
        rw [Bool.not_eq_false] at hcon
        exact hs (mem_of_isPrefixOf hcon k hk)
      have hrest : k ∉ rest := fun hmem => hs (List.mem_cons_of_mem _ hmem)
      simp only [pySplitGo, hpre, Bool.false_eq_true, if_false, ih rest hrest]

theorem strContainsL_false_of_not_mem {k : Char} {sep s : List Char}
    (hk : k ∈ sep) (hs : k ∉ s) : strContainsL sep s = false := by
  unfold strContainsL pySplit
  rw [pySplitGo_no_occ hk _ _ hs]

theorem splitChar_no_occ {sep : Char} :
    ∀ {s : List Char}, sep ∉ s → splitChar sep s = [s] := by
  intro s
  induction s with
  | nil => intro _; rfl
  | cons c rest ih =>
    intro hs
    have hc : ¬(c = sep) := fun h => hs (h ▸ List.mem_cons_self _ _)
    have hrest : sep ∉ rest := fun hmem => hs (List.mem_cons_of_mem _ hmem)
    simp only [splitChar, if_neg hc, ih hrest]

/-! ## Helper lemmas on the parser state machine -/

/-- A block on which no recognizer fires leaves the state untouched unless the
current section is `root_cause` or `impact` (the only sections with a
fall-through branch). -/
theorem untriggered_skip {st : ParserState} {b : List Char}
    (hb : blockUntriggered b = true)
    (h1 : st.cur ≠ some CSection.root_cause) (h2 : st.cur ≠ some CSection.impact) :
    processBlockL st b = st := by
  unfold blockUntriggered at hb
  unfold processBlockL
  cases hlines : strippedLines b with
  | nil => rfl
  | cons fl rest =>
    rw [hlines] at hb
    simp only [Bool.not_eq_true', Bool.or_eq_false_iff] at hb
    obtain ⟨⟨⟨⟨⟨g1, g2⟩, g3⟩, g4⟩, g5⟩, g6⟩ := hb
    have hcur : ¬((st.cur = some CSection.root_cause ∨ st.cur = some CSection.impact)
        ∧ startsDash fl = true) := by
      rintro ⟨hor, -⟩
      rcases hor with h | h
      · exact h1 h
      · exact h2 h
    simp only [g1, g2, g3, g4, g5, g6, Bool.false_eq_true, if_false, if_neg hcur]

/-- The exception-modelled block step never raises: the `[1]` index into the
`split` result is guarded by the containment test, and the only other
fallible operation is caught internally. -/
theorem processBlockLE_ok (st : ParserState) (b : List Char) :
    processBlockLE st b = Except.ok (processBlockL st b) := by
  unfold processBlockLE processBlockL
  cases strippedLines b with
  | nil => rfl
  | cons fl rest =>
    repeat' split
    any_goals rfl
    all_goals simp_all [strContainsL]

/-- Folding the exception-modelled step over any block list succeeds with the
total fold's result. -/
theorem foldlM_processBlockLE (bs : List (List Char)) :
    ∀ st : ParserState,
      List.foldlM processBlockLE st bs = Except.ok (List.foldl processBlockL st bs) := by
  induction bs with
  | nil => intro st; rfl
  | cons b rest ih =>
    intro st
    rw [List.foldlM_cons, processBlockLE_ok]
    show List.foldlM processBlockLE (processBlockL st b) rest = _
    rw [ih, List.foldl_cons]

/-- Untriggered blocks leave the initial state in place. -/
theorem foldl_untriggered (bs : List (List Char))
    (hb : ∀ b ∈ bs, blockUntriggered b = true) :
    ∀ st : ParserState, st.cur = none → List.foldl processBlockL st bs = st := by
  induction bs with
  | nil => intro st _; rfl
  | cons b rest ih =>
    intro st hcur
    rw [List.foldl_cons,
      untriggered_skip (hb b (List.mem_cons_self _ _))
        (by rw [hcur]; exact fun h => by cases h)
        (by rw [hcur]; exact fun h => by cases h)]
    exact ih (fun x hx => hb x (List.mem_cons_of_mem _ hx)) st hcur

/-- C9: the completion parser is total.  (1) The parse loop with Python
exception semantics always returns the total parse's result — never raises —
for every input string; (2) the empty string parses to the all-default
result; (3) any completion none of whose blocks triggers a recognizer parses
to the all-default result (every unpopulated field keeps its default, and all
eight fields are present by construction of `ParseResult`). -/
theorem C9_parser_total :
    (∀ s : String, parseCompletionE s = Except.ok (parseCompletion s))
    ∧ parseCompletion "" = defaultParseResult
    ∧ (∀ s : String, noTriggers s = true → parseCompletion s = defaultParseResult) := by
  refine ⟨fun s => ?_, by decide, fun s hs => ?_⟩
  · unfold parseCompletionE parseCompletion parseCompletionL
    rw [foldlM_processBlockLE]
    rfl
  · unfold parseCompletion parseCompletionL
    unfold noTriggers at hs
    rw [foldl_untriggered (blocksOf s.toList) (List.all_eq_true.mp hs) initParserState rfl]
    rfl

/-- C9 (witness): a concrete headerless completion parses to the default
result and the exception-modelled parse returns it without raising. -/
theorem C9_parser_total_witness :
    parseCompletion c9NoHeaderInput = defaultParseResult
    ∧ parseCompletionE c9NoHeaderInput = Except.ok defaultParseResult := by
  have h := C9_parser_total
  have hd := h.2.2 c9NoHeaderInput (by decide)
  exact ⟨hd, by rw [h.1, hd]⟩

/-- C5 (amended): (1) a `Key Findings` header block captures exactly the
bulleted lines of its own block, in order, bullet markers stripped, replacing
any previous value, for every prior state; (2) while the current section is
`findings` or `recommendations`, a block that triggers no recognizer — in
particular any later bulleted block — leaves the state entirely unchanged,
so bullets outside the header's block are never appended. -/
theorem C5_bullets_single_block :
    (∀ st : ParserState,
      processBlockL st c5HeaderBlock.toList
        = { cur := some CSection.findings
            result := { st.result with key_findings := ["a", "b"] } })
    ∧ (∀ (st : ParserState) (b : List Char),
        (st.cur = some CSection.findings ∨ st.cur = some CSection.recommendations) →
        blockUntriggered b = true →
        processBlockL st b = st) := by
  constructor
  · intro st
    rfl
  · intro st b hcur hb
    refine untriggered_skip hb ?_ ?_
    · rcases hcur with h | h <;> rw [h] <;> exact fun hc => by cases hc
    · rcases hcur with h | h <;> rw [h] <;> exact fun hc => by cases hc

/-- C5 (witness): from the state that already holds `["a"]` in section
`findings`, the loose block `"- b"` changes nothing, while the header block
itself captures both of its own bullets. -/
theorem C5_bullets_single_block_witness :
    processBlockL c5MidState c5LooseBullet.toList = c5MidState
    ∧ (processBlockL initParserState c5HeaderBlock.toList).result.key_findings = ["a", "b"] := by
  have h := C5_bullets_single_block
  exact ⟨h.2 c5MidState _ (Or.inl rfl) (by decide), by rw [h.1]⟩

/-- C4 (amended): on an explicit error payload, `IncidentAnalyzer.analyze`
raises an error carrying the payload's error message (the raw completion is
only logged), while `LogAnalyzer.analyze` applies no fatal treatment: for
every log list it returns an ordinary result whose insights list is empty. -/
theorem C4_error_payload_split :
    (∀ (incident_id : String) (importTime constructionTime : Nat) (msg raw : String),
      incidentAnalyzeStep incident_id importTime constructionTime
          (BedrockOutcome.errorPayload msg raw)
        = Except.error (failMsgPre ++ msg))
    ∧ (∀ (logs : List LogRecord) (msg raw : String),
        logAnalyze logs (BedrockOutcome.errorPayload msg raw)
          = Except.ok ⟨[], analyzeErrorPatterns (logs.map renderLog),
                       analyzeCorrelations (logs.map renderLog)⟩) := by
  constructor
  · intro incident_id importTime constructionTime msg raw
    rfl
  · intro logs msg raw
    cases logs with
    | nil => rfl
    | cons l rest => rfl

/-! ## Digit-string lemmas for the confidence branch -/

theorem not_pyWs_of_digit {c : Char} (h : c.isDigit = true) : isPyWs c = false := by
  by_contra hw
  rw [Bool.not_eq_false] at hw
  unfold isPyWs at hw
  simp only [Bool.or_eq_true, decide_eq_true_eq] at hw
  rcases hw with ((((rfl | rfl) | rfl) | rfl) | rfl) | rfl <;> exact absurd h (by decide)

theorem digit_ne {c d : Char} (h : c.isDigit = true) (hd : d.isDigit = false) : c ≠ d := by
  intro he
  subst he
  rw [h] at hd
  exact absurd hd (by decide)

theorem dropWhile_cons_false {p : Char → Bool} {c : Char} {l : List Char}
    (h : p c = false) : (c :: l).dropWhile p = c :: l := by
  simp [List.dropWhile_cons, h]

theorem dropWhile_cons_true {p : Char → Bool} {c : Char} {l : List Char}
    (h : p c = true) : (c :: l).dropWhile p = l.dropWhile p := by
  simp [List.dropWhile_cons, h]

theorem stripWs_sandwich {c d : Char} (hc : isPyWs c = false) (hd : isPyWs d = false)
    (m : List Char) : pyStripWs (c :: (m ++ [d])) = c :: (m ++ [d]) := by
  unfold pyStripWs
  rw [dropWhile_cons_false hc]
  have hrev : (c :: (m ++ [d])).reverse = d :: (m.reverse ++ [c]) := by simp
  rw [hrev, dropWhile_cons_false hd, ← hrev, List.reverse_reverse]

theorem pyStripWs_cons_ws {c : Char} (hc : isPyWs c = true) (l : List Char) :
    pyStripWs (c :: l) = pyStripWs l := by
  unfold pyStripWs
  rw [dropWhile_cons_true hc]

theorem takeWhile_all {p : Char → Bool} :
    ∀ {l : List Char}, (∀ c ∈ l, p c = true) → l.takeWhile p = l := by
  intro l
  induction l with
  | nil => intro _; rfl
  | cons c rest ih =>
    intro h
    simp [List.takeWhile_cons, h c (List.mem_cons_self _ _),
      ih fun x hx => h x (List.mem_cons_of_mem _ hx)]

theorem dropWhile_all {p : Char → Bool} :
    ∀ {l : List Char}, (∀ c ∈ l, p c = true) → l.dropWhile p = [] := by
  intro l
  induction l with
  | nil => intro _; rfl
  | cons c rest ih =>
    intro h
    rw [dropWhile_cons_true (h c (List.mem_cons_self _ _))]
    exact ih fun x hx => h x (List.mem_cons_of_mem _ hx)

theorem pySplit_append_of_not_occ {sep t : List Char} {k : Char}
    (hk : k ∈ sep) (ht : k ∉ t) :
    pySplit sep (sep ++ t) = [[], t] := by
  cases hsep : sep with
  | nil => exact absurd hsep (by rintro rfl; cases hk)
  | cons c cs =>
    subst hsep
    unfold pySplit
    have hform : (c :: cs) ++ t = c :: (cs ++ t) := rfl
    rw [hform]
    have hlen : (c :: (cs ++ t)).length = (cs ++ t).length + 1 := List.length_cons _ _
    rw [hlen]
    have hpre : (c :: cs).isPrefixOf (c :: (cs ++ t)) = true := by
      rw [← hform]; exact isPrefixOf_append_self _ _
    simp only [pySplitGo, hpre, if_true]
    have hdrop : List.drop (c :: cs).length (c :: (cs ++ t)) = t := by
      rw [← hform]; exact List.drop_left _ _
    rw [hdrop, pySplitGo_no_occ hk _ _ ht]

/-- The characters of a digit confidence line: the tag, a space, the digits,
a percent sign. -/
theorem confBlock_eq (ds : List Char) :
    confBlockOf ds
      = 'C' :: (('o' :: 'n' :: 'f' :: 'i' :: 'd' :: 'e' :: 'n' :: 'c' :: 'e' :: ':' :: ' ' :: ds)
          ++ ['%']) := by
  simp [confBlockOf, tagConfidence]

/-- A character that is neither in the tag, a space, a digit, nor the percent
sign does not occur in a digit confidence line. -/
theorem not_mem_confBlock {k : Char} {ds : List Char}
    (hd : ∀ c ∈ ds, c.isDigit = true)
    (h1 : k ∉ tagConfidence.toList) (h2 : k ≠ ' ') (h3 : k.isDigit = false) (h4 : k ≠ '%') :
    k ∉ confBlockOf ds := by
  intro hmem
  unfold confBlockOf at hmem
  rcases List.mem_append.mp hmem with h | h
  · exact h1 h
  · rcases List.mem_cons.mp h with h' | h'
    · exact h2 h'
    · rcases List.mem_append.mp h' with h'' | h''
      · exact absurd (hd _ h'') (by simp [h3])
      · exact h4 (List.mem_singleton.mp h'')

theorem newline_not_mem_confBlock {ds : List Char} (hd : ∀ c ∈ ds, c.isDigit = true) :
    '\n' ∉ confBlockOf ds :=
  not_mem_confBlock hd (by decide) (by decide) (by decide) (by decide)

theorem strip_confBlock (ds : List Char) :
    pyStripWs (confBlockOf ds) = confBlockOf ds := by
  rw [confBlock_eq]
  exact stripWs_sandwich (by decide) (by decide) _

theorem strippedLines_confBlock (ds : List Char) (hd : ∀ c ∈ ds, c.isDigit = true) :
    strippedLines (confBlockOf ds) = [confBlockOf ds] := by
  unfold strippedLines
  rw [splitChar_no_occ (newline_not_mem_confBlock hd)]
  simp only [List.map_cons, List.map_nil, strip_confBlock, List.filter]
  rw [confBlock_eq]
  rfl

theorem dot_not_mem_confBlock {ds : List Char} (hd : ∀ c ∈ ds, c.isDigit = true) :
    ∀ (tag : String), '.' ∈ tag.toList → strContainsL tag.toList (confBlockOf ds) = false := by
  intro tag htag
  exact strContainsL_false_of_not_mem htag
    (not_mem_confBlock hd (by decide) (by decide) (by decide) (by decide))

theorem pySplit_confBlock (ds : List Char) (hd : ∀ c ∈ ds, c.isDigit = true) :
    pySplit tagConfidence.toList (confBlockOf ds) = [[], ' ' :: (ds ++ ['%'])] := by
  have hC : 'C' ∉ ' ' :: (ds ++ ['%']) := by
    intro hmem
    rcases List.mem_cons.mp hmem with h | h
    · exact absurd h (by decide)
    · rcases List.mem_append.mp h with h' | h'
      · exact absurd (hd _ h') (by decide)
      · exact absurd (List.mem_singleton.mp h') (by decide)
  exact pySplit_append_of_not_occ (by decide) hC

theorem confStr_digits (ds : List Char) (hne : ds ≠ []) (hd : ∀ c ∈ ds, c.isDigit = true) :
    pyRstripChars ['%'] (pyStripWs (' ' :: (ds ++ ['%']))) = ds := by
  cases ds with
  | nil => exact absurd rfl hne
  | cons d ds' =>
    have hd0 : d.isDigit = true := hd d (List.mem_cons_self _ _)
    rw [pyStripWs_cons_ws (by decide)]
    rw [show ((d :: ds') ++ ['%'] : List Char) = d :: (ds' ++ ['%']) from rfl]
    rw [stripWs_sandwich (not_pyWs_of_digit hd0) (by decide) _]
    unfold pyRstripChars
    rw [show (d :: (ds' ++ ['%'])).reverse = '%' :: (ds'.reverse ++ [d]) from by simp]
    rw [dropWhile_cons_true (by simp)]
    cases hrev2 : ds'.reverse with
    | nil =>
      have hds : ds' = [] := by simpa using congrArg List.reverse hrev2
      subst hds
      have hne' : d ≠ '%' := digit_ne hd0 (by decide)
      simp [List.dropWhile_cons, hne']
    | cons e rest =>
      have he : e.isDigit = true := by
        refine hd e (List.mem_cons_of_mem _ (List.mem_reverse.mp ?_))
        rw [hrev2]; exact List.mem_cons_self _ _
      have hne' : e ≠ '%' := digit_ne he (by decide)
      have hds : ds' = rest.reverse ++ [e] := by
        have h := congrArg List.reverse hrev2
        simpa using h
      rw [show (e :: rest ++ [d] : List Char) = e :: (rest ++ [d]) from rfl]
      rw [dropWhile_cons_false (by simp [hne'])]
      rw [hds]
      simp

theorem pyFloat_digits (ds : List Char) (hne : ds ≠ []) (hd : ∀ c ∈ ds, c.isDigit = true) :
    pyFloat ds = some ((digitsToNat ds : ℚ)) := by
  cases ds with
  | nil => exact absurd rfl hne
  | cons d ds' =>
    have hd0 : d.isDigit = true := hd d (List.mem_cons_self _ _)
    unfold pyFloat
    have hsgn : (match (d :: ds' : List Char) with
        | '+' :: r => ((1 : ℚ), r)
        | '-' :: r => ((-1 : ℚ), r)
        | _ => ((1 : ℚ), d :: ds')) = ((1 : ℚ), d :: ds') := by
      split
      · rename_i heq
        injection heq with h1 _
        exact absurd (h1 ▸ hd0) (by decide)
      · rename_i heq
        injection heq with h1 _
        exact absurd (h1 ▸ hd0) (by decide)
      · rfl
    rw [hsgn]
    simp only [takeWhile_all hd, dropWhile_all hd, List.isEmpty_cons, List.isEmpty_nil,
      Bool.and_false, Bool.false_eq_true, if_false]
    norm_num [digitsToNat]

/-- C1 (amended): for every digit string `N` and every prior state, the
single-line block `Confidence: N%` parses to confidence exactly `N/100` —
with no clamping, so `N` above `100` yields a value above `1` — assigned to
the current section's confidence when that section is `root_cause` or
`impact`, and to nothing otherwise; and a non-numeric percentage such as
`Confidence: [Number]%` leaves the whole state unchanged for every prior
state (the prior confidence, `0.0` if never set, is kept and no exception
escapes — see the totality theorem for the latter). -/
theorem C1_confidence_unclamped :
    (∀ (st : ParserState) (ds : List Char), ds ≠ [] → (∀ c ∈ ds, c.isDigit = true) →
      processBlockL st (confBlockOf ds)
        = (if st.cur = some CSection.root_cause then
            { st with result :=
                { st.result with root_cause_confidence := (digitsToNat ds : ℚ) / 100 } }
           else if st.cur = some CSection.impact then
            { st with result :=
                { st.result with impact_confidence := (digitsToNat ds : ℚ) / 100 } }
           else st))
    ∧ (∀ st : ParserState, processBlockL st confBadBlock.toList = st) := by
  constructor
  · intro st ds hne hd
    have hcc : strContainsL tagConfidence.toList (confBlockOf ds) = true := by
      unfold strContainsL
      rw [pySplit_confBlock ds hd]
    unfold processBlockL
    simp only [strippedLines_confBlock ds hd,
      dot_not_mem_confBlock hd tagRootCause (by decide),
      dot_not_mem_confBlock hd tagImpact (by decide),
      dot_not_mem_confBlock hd tagFindings (by decide),
      dot_not_mem_confBlock hd tagRecs (by decide),
      hcc, Bool.false_eq_true, if_false, eq_self_iff_true, if_true,
      pySplit_confBlock ds hd]
    unfold confApply
    simp only [confStr_digits ds hne hd, pyFloat_digits ds hne hd]
  · intro st
    rfl

/-- C1 (witness): in state `root_cause`, the block `Confidence: 85%` sets the
root-cause confidence to `85/100 = 17/20`, and the non-numeric block keeps
the default `0`. -/
theorem C1_confidence_unclamped_witness :
    processBlockL ⟨defaultParseResult, some CSection.root_cause⟩ (confBlockOf ['8', '5'])
      = ⟨{ defaultParseResult with root_cause_confidence := 17 / 20 },
         some CSection.root_cause⟩
    ∧ processBlockL ⟨defaultParseResult, some CSection.root_cause⟩ confBadBlock.toList
      = ⟨defaultParseResult, some CSection.root_cause⟩ := by
  have h := C1_confidence_unclamped
  constructor
  · rw [h.1 ⟨defaultParseResult, some CSection.root_cause⟩ ['8', '5'] (by decide) (by decide)]
    decide
  · exact h.2 _

/-! ## Lemmas for the metric analyzer -/

theorem listSum_nonneg : ∀ {l : List ℚ}, (∀ x ∈ l, 0 ≤ x) → 0 ≤ l.sum := by
  intro l
  induction l with
  | nil => intro _; simp
  | cons a t ih =>
    intro h
    rw [List.sum_cons]
    exact add_nonneg (h a (List.mem_cons_self _ _))
      (ih fun x hx => h x (List.mem_cons_of_mem _ hx))

theorem single_le_listSum : ∀ {l : List ℚ}, (∀ x ∈ l, 0 ≤ x) → ∀ {a : ℚ}, a ∈ l → a ≤ l.sum := by
  intro l
  induction l with
  | nil => intro _ a ha; cases ha
  | cons b t ih =>
    intro h a ha
    rw [List.sum_cons]
    rcases List.mem_cons.mp ha with rfl | hmem
    · exact le_add_of_nonneg_right (listSum_nonneg fun x hx => h x (List.mem_cons_of_mem _ hx))
    · calc a ≤ t.sum := ih (fun x hx => h x (List.mem_cons_of_mem _ hx)) hmem
        _ ≤ b + t.sum := le_add_of_nonneg_left (h b (List.mem_cons_self _ _))

theorem zero_mem_idxColumn {n : Nat} (hn : 0 < n) : (0 : ℚ) ∈ idxColumn n := by
  unfold idxColumn
  simp
  exact ⟨0, hn, by norm_num⟩

theorem one_mem_idxColumn {n : Nat} (hn : 1 < n) : (1 : ℚ) ∈ idxColumn n := by
  unfold idxColumn
  simp
  exact ⟨1, hn, by norm_num⟩

theorem valuesOf_rename (rows : List MetricRow) (f : String → String) :
    valuesOf (rows.map fun r => ⟨f r.name, r.value⟩) = valuesOf rows := by
  simp [valuesOf, List.map_map, Function.comp]

/-- C2 (amended): anomaly detection is computed over the pooled value column,
regardless of series names: at most one record is emitted; renaming every
series leaves the output unchanged; and every emitted record is named by the
DataFrame column `"value"`, carries the mean and (squared) standard deviation
of all values pooled together, and lists strictly increasing indices that are
positions in the whole input list whose values satisfy the pooled
three-sigma test. -/
theorem C2_anomalies_pooled :
    ∀ rows : List MetricRow,
      (detectAnomalies rows).length ≤ 1
      ∧ (∀ f : String → String,
          detectAnomalies (rows.map fun r => ⟨f r.name, r.value⟩) = detectAnomalies rows)
      ∧ (∀ rec ∈ detectAnomalies rows,
          rec.metric = valueColName
          ∧ rec.mean = listMean (valuesOf rows)
          ∧ rec.var = sampleVarOf (valuesOf rows)
          ∧ List.Pairwise (· < ·) rec.anomaly_indices
          ∧ ∀ i ∈ rec.anomaly_indices,
              i < rows.length
              ∧ anomalyCond (listMean (valuesOf rows)) (sampleVarOf (valuesOf rows))
                  ((valuesOf rows).getD i 0) = true) := by
  intro rows
  refine ⟨?_, ?_, ?_⟩
  · unfold detectAnomalies
    dsimp only
    split <;> simp
  · intro f
    unfold detectAnomalies
    rw [valuesOf_rename rows f]
  · intro rec hrec
    unfold detectAnomalies at hrec
    dsimp only at hrec
    split at hrec
    · cases hrec
    · rw [List.mem_singleton] at hrec
      subst hrec
      refine ⟨rfl, rfl, rfl, ?_, ?_⟩
      · exact (List.pairwise_lt_range _).filter _
      · intro i hi
        rw [List.mem_filter] at hi
        refine ⟨?_, hi.2⟩
        have := List.mem_range.mp hi.1
        simpa [valuesOf] using this

/-- C2 (witness): the pooled record of the two-series example is named by the
value column and the output has at most one record. -/
theorem C2_anomalies_pooled_witness :
    ((detectAnomalies c2Rows).getD 0 dummyAnomaly).metric = valueColName
    ∧ (detectAnomalies c2Rows).length ≤ 1 := by
  have h := C2_anomalies_pooled c2Rows
  exact ⟨(h.2.2 _ (by decide)).1, h.1⟩

/-- C7 (amended): trend detection fits a single ordinary-least-squares line
of the pooled value column against row index `0..n-1` (never wall-clock
time): whenever the frame has at least two rows, the output is exactly one
record named by the value column with `direction` decided by the sign of the
slope (a zero slope classifies as `"decreasing"`) and `strength = |slope|`,
renaming the series changes nothing, and the fitted slope genuinely solves
the least-squares normal equation `slope * Sxx = Sxy` with `Sxx ≠ 0`;
whereas a one-row frame — reachable, since `analyze` only guards empty
metrics — is not skipped but makes the unguarded `np.polyfit` raise
`LinAlgError`. -/
theorem C7_trend_pooled :
    (∀ rows : List MetricRow, 2 ≤ rows.length →
      analyzeTrendsE rows
        = Except.ok
            [{ metric := valueColName
               direction := if olsSlope (valuesOf rows) > 0 then dirIncreasing else dirDecreasing
               slope := olsSlope (valuesOf rows)
               intercept := olsIntercept (valuesOf rows)
               strength := |olsSlope (valuesOf rows)| }]
      ∧ (∀ f : String → String,
          analyzeTrendsE (rows.map fun r => ⟨f r.name, r.value⟩) = analyzeTrendsE rows)
      ∧ (olsSlope (valuesOf rows) = 0 →
          analyzeTrendsE rows
            = Except.ok
                [{ metric := valueColName, direction := dirDecreasing, slope := 0,
                   intercept := olsIntercept (valuesOf rows), strength := 0 }])
      ∧ sxxOf (valuesOf rows) ≠ 0
      ∧ olsSlope (valuesOf rows) * sxxOf (valuesOf rows) = sxyOf (valuesOf rows))
    ∧ (∀ r : MetricRow, analyzeTrendsE [r] = Except.error linAlgErrMsg) := by
  constructor
  case right => intro r; rfl
  case left =>
    intro rows h2
    have hlen : (valuesOf rows).length = rows.length := by simp [valuesOf]
    have hn : 2 ≤ (valuesOf rows).length := hlen ▸ h2
    have heq : analyzeTrendsE rows
        = Except.ok
            [{ metric := valueColName
               direction := if olsSlope (valuesOf rows) > 0 then dirIncreasing else dirDecreasing
               slope := olsSlope (valuesOf rows)
               intercept := olsIntercept (valuesOf rows)
               strength := |olsSlope (valuesOf rows)| }] := by
      unfold analyzeTrendsE
      cases hv : valuesOf rows with
      | nil => rw [hv] at hn; simp at hn
      | cons y0 tl =>
        cases tl with
        | nil => rw [hv] at hn; simp at hn
        | cons y1 rest => rfl
    have hsxx : sxxOf (valuesOf rows) ≠ 0 := by
      intro hz
      unfold sxxOf at hz
      set xs := idxColumn (valuesOf rows).length with hxs
      set xbar := listMean xs with hxbar
      have hnn : ∀ t ∈ xs.map fun x => (x - xbar) ^ 2, (0 : ℚ) ≤ t := by
        intro t ht
        rcases List.mem_map.mp ht with ⟨x, _, rfl⟩
        exact sq_nonneg _
      have hzero : ∀ t ∈ xs.map fun x => (x - xbar) ^ 2, t = (0 : ℚ) := by
        intro t ht
        have h1 := single_le_listSum hnn ht
        rw [hz] at h1
        exact le_antisymm h1 (hnn t ht)
      have h0x : ((0 : ℚ) - xbar) ^ 2 ∈ xs.map fun x => (x - xbar) ^ 2 := by
        refine List.mem_map.mpr ⟨0, ?_, rfl⟩
        rw [hxs]
        exact zero_mem_idxColumn (by omega)
      have h1x : ((1 : ℚ) - xbar) ^ 2 ∈ xs.map fun x => (x - xbar) ^ 2 := by
        refine List.mem_map.mpr ⟨1, ?_, rfl⟩
        rw [hxs]
        exact one_mem_idxColumn (by omega)
      have e0 : xbar = 0 := by
        have := hzero _ h0x
        have h' : (0 : ℚ) - xbar = 0 := by
          exact sq_eq_zero_iff.mp this
        linarith
      have e1 : xbar = 1 := by
        have := hzero _ h1x
        have h' : (1 : ℚ) - xbar = 0 := by
          exact sq_eq_zero_iff.mp this
        linarith
      rw [e0] at e1
      norm_num at e1
    refine ⟨heq, ?_, ?_, hsxx, div_mul_cancel₀ _ hsxx⟩
    · intro f
      unfold analyzeTrendsE
      rw [valuesOf_rename rows f]
    · intro hz
      rw [heq, hz]
      norm_num

/-- C7 (witness): the single-series example `[1, 2, 3, 4, 5]` yields exactly
one trend with slope `1`, intercept `1`, direction `"increasing"`, and a
one-row frame raises the `LinAlgError` instead of being skipped. -/
theorem C7_trend_pooled_witness :
    analyzeTrendsE c7FiveRows
      = Except.ok
          [{ metric := valueColName, direction := dirIncreasing, slope := 1,
             intercept := 1, strength := 1 }]
    ∧ analyzeTrendsE [⟨"m", 42⟩] = Except.error linAlgErrMsg := by
  have h := C7_trend_pooled
  constructor
  · rw [(h.1 c7FiveRows (by decide)).1]
    decide
  · exact h.2 ⟨"m", 42⟩

/-! ## Lemmas for the correlation scan -/

theorem mem_corrWith {e : LogEvent} {c : CorrRec} :
    ∀ {l : List LogEvent}, c ∈ corrWith e l ↔ ∃ f ∈ l, pairCond e f = true ∧ c = mkCorr e f := by
  intro l
  induction l with
  | nil => simp [corrWith]
  | cons f fs ih =>
    by_cases h : pairCond e f = true
    · simp only [corrWith, h, if_true, List.mem_append, List.mem_singleton, ih, List.mem_cons]
      aesop
    · rw [Bool.not_eq_true] at h
      simp only [corrWith, h, Bool.false_eq_true, if_false, List.nil_append, ih, List.mem_cons]
      aesop

theorem sublist_pair_cons {e f x : LogEvent} {l : List LogEvent} :
    List.Sublist [e, f] (x :: l) ↔ (e = x ∧ f ∈ l) ∨ List.Sublist [e, f] l := by
  constructor
  · intro h
    cases h with
    | cons _ h' => exact Or.inr h'
    | cons₂ _ h' => exact Or.inl ⟨rfl, List.singleton_sublist.mp h'⟩
  · rintro (⟨rfl, hf⟩ | h)
    · exact List.Sublist.cons₂ _ (List.singleton_sublist.mpr hf)
    · exact List.Sublist.cons _ h

theorem mem_corrPairs {c : CorrRec} :
    ∀ {l : List LogEvent},
      c ∈ corrPairs l
        ↔ ∃ e f, List.Sublist [e, f] l ∧ pairCond e f = true ∧ c = mkCorr e f := by
  intro l
  induction l with
  | nil => simp [corrPairs]
  | cons x l ih =>
    simp only [corrPairs, List.mem_append, mem_corrWith, ih]
    constructor
    · rintro (⟨f, hf, hc, rfl⟩ | ⟨e, f, hs, hc, rfl⟩)
      · exact ⟨x, f, sublist_pair_cons.mpr (Or.inl ⟨rfl, hf⟩), hc, rfl⟩
      · exact ⟨e, f, sublist_pair_cons.mpr (Or.inr hs), hc, rfl⟩
    · rintro ⟨e, f, hs, hc, rfl⟩
      rcases sublist_pair_cons.mp hs with ⟨rfl, hf⟩ | hs'
      · exact Or.inl ⟨f, hf, hc, rfl⟩
      · exact Or.inr ⟨e, f, hs', hc, rfl⟩

/-- C6 (amended): a `CorrelationEvent` is produced exactly for the ordered
pairs of timestamp-sorted events whose time difference is at most 300
seconds and whose relatedness test passes; and that test is the Jaccard
similarity of the two *whole rendered log lines'* lower-cased word sets —
timestamp, level and source tokens included, not only the message — strictly
above `3/10`, with an empty union never related (so a tie at exactly `0.30`
is not related, but entries with disjoint message vocabularies can still
correlate through the shared non-message tokens). -/
theorem C6_correlation_pairs :
    (∀ (logs : List String) (c : CorrRec),
        c ∈ analyzeCorrelations logs
          ↔ ∃ e f, List.Sublist [e, f] (sortEventsByTs (logs.filterMap parseEvent))
              ∧ f.ts - e.ts ≤ 300 ∧ areEventsRelated e.content f.content = true
              ∧ c = mkCorr e f)
    ∧ (∀ a b : String, areEventsRelated a b = true
          ↔ (tokenFinset a ∪ tokenFinset b).card ≠ 0
            ∧ ((tokenFinset a ∩ tokenFinset b).card : ℚ)
                / ((tokenFinset a ∪ tokenFinset b).card : ℚ) > 3 / 10) := by
  constructor
  · intro logs c
    unfold analyzeCorrelations
    rw [mem_corrPairs]
    constructor
    · rintro ⟨e, f, hs, hc, rfl⟩
      rw [pairCond, Bool.and_eq_true, decide_eq_true_eq] at hc
      exact ⟨e, f, hs, hc.1, hc.2, rfl⟩
    · rintro ⟨e, f, hs, h1, h2, rfl⟩
      exact ⟨e, f, hs, by rw [pairCond, Bool.and_eq_true, decide_eq_true_eq]; exact ⟨h1, h2⟩, rfl⟩
  · intro a b
    unfold areEventsRelated
    dsimp only
    by_cases h : (tokenFinset a ∪ tokenFinset b).card = 0
    · simp [h]
    · simp [h]

/-- C6 (witness): the disjoint-message pair is produced by the correlation
scan, through the amended characterization. -/
theorem C6_correlation_pairs_witness :
    c6WitnessCorr ∈ analyzeCorrelations [c6Log1, c6Log2] := by
  refine (C6_correlation_pairs.1 [c6Log1, c6Log2] c6WitnessCorr).mpr
    ⟨c6Event1, c6Event2, ?_, ?_, ?_, rfl⟩
  · decide
  · decide
  · decide

/-! ## Lemmas for the error-pattern grouping -/

theorem mem_firstSeen {a : String} : ∀ {l : List String}, a ∈ firstSeen l ↔ a ∈ l := by
  intro l
  induction l with
  | nil => simp [firstSeen]
  | cons b t ih =>
    simp only [firstSeen, List.mem_cons, List.mem_filter, ih, decide_eq_true_eq]
    by_cases hab : a = b <;> simp [hab]

theorem nodup_firstSeen : ∀ (l : List String), (firstSeen l).Nodup := by
  intro l
  induction l with
  | nil => simp [firstSeen]
  | cons b t ih =>
    rw [firstSeen]
    refine List.nodup_cons.mpr ⟨?_, ih.filter _⟩
    intro hmem
    have h := (List.mem_filter.mp hmem).2
    simp at h

theorem countP_congr_mem {l : List ErrRecord} {p q : ErrRecord → Bool}
    (h : ∀ a ∈ l, p a = q a) : l.countP p = l.countP q := by
  induction l with
  | nil => rfl
  | cons a t ih =>
    rw [List.countP_cons, List.countP_cons, h a (List.mem_cons_self _ _),
      ih fun x hx => h x (List.mem_cons_of_mem _ hx)]

theorem length_eq_countP_add (l : List ErrRecord) (p : ErrRecord → Bool) :
    l.length = l.countP p + l.countP (fun a => !(p a)) := by
  induction l with
  | nil => rfl
  | cons a t ih =>
    rw [List.length_cons, List.countP_cons, List.countP_cons, ih]
    by_cases h : p a = true
    · simp [h]
      omega
    · rw [Bool.not_eq_true] at h
      simp [h]
      omega

theorem count_filter_ne {ms : List ErrRecord} {k m : String} (hne : m ≠ k) :
    msgCount ms m = msgCount (ms.filter fun r => !(r.message == k)) m := by
  unfold msgCount
  rw [List.countP_filter]
  apply countP_congr_mem
  intro a _
  by_cases h : a.message = m
  · simp [h, hne]
  · simp [h]

theorem sum_msgCounts :
    ∀ (keys : List String) (ms : List ErrRecord), keys.Nodup →
      (∀ r ∈ ms, r.message ∈ keys) →
      (keys.map (msgCount ms)).sum = ms.length := by
  intro keys
  induction keys with
  | nil =>
    intro ms _ hcov
    cases ms with
    | nil => rfl
    | cons r t => exact absurd (hcov r (List.mem_cons_self _ _)) (List.not_mem_nil _)
  | cons k ks ih =>
    intro ms hnd hcov
    rw [List.map_cons, List.sum_cons]
    have hkn : k ∉ ks := (List.nodup_cons.mp hnd).1
    have hnd' : ks.Nodup := (List.nodup_cons.mp hnd).2
    have hcov2 : ∀ r ∈ ms.filter (fun r => !(r.message == k)), r.message ∈ ks := by
      intro r hr
      rw [List.mem_filter] at hr
      have h1 := hcov r hr.1
      have h2 : r.message ≠ k := by simpa using hr.2
      rcases List.mem_cons.mp h1 with h | h
      · exact absurd h h2
      · exact h
    have hmap : ks.map (msgCount ms) = ks.map (msgCount (ms.filter fun r => !(r.message == k))) := by
      apply List.map_congr_left
      intro m hm
      exact count_filter_ne fun he => hkn (he ▸ hm)
    rw [hmap, ih _ hnd' hcov2]
    unfold msgCount
    rw [show (ms.filter fun r => !(r.message == k)).length
        = ms.countP (fun r => !(r.message == k)) from (List.countP_eq_length_filter _ _).symm]
    exact (length_eq_countP_add ms (fun r => r.message == k)).symm

theorem perm_insertByFreq (x : ErrorPattern) :
    ∀ (l : List ErrorPattern), (insertByFreq x l).Perm (x :: l) := by
  intro l
  induction l with
  | nil => exact List.Perm.refl _
  | cons y ys ih =>
    unfold insertByFreq
    by_cases h : x.frequency < y.frequency
    · rw [if_pos h]
      exact (ih.cons y).trans (List.Perm.swap x y ys)
    · rw [if_neg h]

theorem perm_sortByFreq (l : List ErrorPattern) : (sortByFreq l).Perm l := by
  induction l with
  | nil => exact List.Perm.refl _
  | cons a t ih =>
    show (insertByFreq a (sortByFreq t)).Perm (a :: t)
    exact (perm_insertByFreq a _).trans (ih.cons a)

theorem sorted_insertByFreq {x : ErrorPattern} :
    ∀ {l : List ErrorPattern}, List.Pairwise (fun a b => b.frequency ≤ a.frequency) l →
      List.Pairwise (fun a b => b.frequency ≤ a.frequency) (insertByFreq x l) := by
  intro l
  induction l with
  | nil => intro _; simp [insertByFreq]
  | cons y ys ih =>
    intro hp
    rw [List.pairwise_cons] at hp
    unfold insertByFreq
    by_cases h : x.frequency < y.frequency
    · rw [if_pos h]
      rw [List.pairwise_cons]
      refine ⟨?_, ih hp.2⟩
      intro z hz
      rcases List.mem_cons.mp ((perm_insertByFreq x ys).mem_iff.mp hz) with rfl | hmem
      · exact le_of_lt h
      · exact hp.1 z hmem
    · rw [if_neg h]
      push_neg at h
      rw [List.pairwise_cons]
      refine ⟨?_, List.pairwise_cons.mpr hp⟩
      intro z hz
      rcases List.mem_cons.mp hz with rfl | hmem
      · exact h
      · exact le_trans (hp.1 z hmem) h

theorem sorted_sortByFreq (l : List ErrorPattern) :
    List.Pairwise (fun a b => b.frequency ≤ a.frequency) (sortByFreq l) := by
  induction l with
  | nil => simp [sortByFreq]
  | cons a t ih =>
    show List.Pairwise _ (insertByFreq a (sortByFreq t))
    exact sorted_insertByFreq ih

theorem filter_insertByFreq (x : ErrorPattern) (c : Nat) :
    ∀ (l : List ErrorPattern),
      (insertByFreq x l).filter (fun p => p.frequency == c)
        = if x.frequency == c then x :: l.filter (fun p => p.frequency == c)
          else l.filter (fun p => p.frequency == c) := by
  intro l
  induction l with
  | nil => simp [insertByFreq, List.filter_cons]
  | cons y ys ih =>
    unfold insertByFreq
    by_cases h : x.frequency < y.frequency
    · rw [if_pos h]
      rw [List.filter_cons, List.filter_cons, ih]
      by_cases hx : x.frequency = c
      · have hy : y.frequency ≠ c := by omega
        simp [hx, hy]
      · simp [hx]
    · rw [if_neg h]
      by_cases hx : x.frequency = c <;>
        simp [hx, List.filter_cons]

theorem filter_sortByFreq (c : Nat) :
    ∀ (l : List ErrorPattern),
      (sortByFreq l).filter (fun p => p.frequency == c)
        = l.filter (fun p => p.frequency == c) := by
  intro l
  induction l with
  | nil => rfl
  | cons a t ih =>
    show (insertByFreq a (sortByFreq t)).filter _ = _
    rw [filter_insertByFreq, ih, List.filter_cons]

theorem analyzeErrorPatterns_eq (logs : List String) :
    analyzeErrorPatterns logs = sortByFreq (groupRecs (extractErrors logs)) := by
  unfold analyzeErrorPatterns
  dsimp only
  by_cases h : (extractErrors logs).isEmpty = true
  · rw [if_pos h]
    have he : extractErrors logs = [] := by
      cases hx : extractErrors logs with
      | nil => rfl
      | cons a t => rw [hx] at h; cases h
    rw [he]
    rfl
  · rw [if_neg h]

theorem extractErrors_length_no_newline :
    ∀ (logs : List String), (∀ l ∈ logs, '\n' ∉ l.toList) →
      (extractErrors logs).length = logs.countP (fun l => (segMatch l.toList).isSome) := by
  intro logs
  induction logs with
  | nil => intro _; rfl
  | cons l rest ih =>
    intro h
    have h1 : extractErrors (l :: rest) = extractFromLog l ++ extractErrors rest := rfl
    rw [h1, List.length_append, List.countP_cons,
      ih fun x hx => h x (List.mem_cons_of_mem _ hx)]
    have hsplit : splitChar '\n' l.toList = [l.toList] :=
      splitChar_no_occ (h l (List.mem_cons_self _ _))
    have h2 : extractFromLog l = (segMatch l.toList).toList := by
      unfold extractFromLog
      rw [hsplit]
      cases hm : segMatch l.toList with
      | none =>
        simp only [String.toList] at hm
        simp [hm]
      | some r =>
        simp only [String.toList] at hm
        simp [hm]
    rw [h2]
    cases hm : segMatch l.toList with
    | none =>
      simp only [String.toList] at hm
      simp [hm]
    | some r =>
      simp only [String.toList] at hm
      simp [hm]
      omega

/-- C8: error-pattern extraction groups the matched error-level messages by
exact string equality: the output has one entry per distinct extracted
message (no duplicates, and a message appears in the output exactly when it
was extracted), each entry's frequency is that message's occurrence count
and its level is the level of the message's first occurrence, the
frequencies sum to the number of matched lines (for single-line log strings,
one match per matched line), the list is sorted descending by frequency,
and entries of any equal frequency keep the first-seen order of their
messages. -/
theorem C8_error_pattern_grouping :
    ∀ logs : List String,
      ((analyzeErrorPatterns logs).map ErrorPattern.message).Nodup
      ∧ (∀ p ∈ analyzeErrorPatterns logs,
          p.frequency = msgCount (extractErrors logs) p.message
          ∧ p.level = firstLevelOf (extractErrors logs) p.message)
      ∧ (∀ m : String,
          (∃ p ∈ analyzeErrorPatterns logs, p.message = m)
            ↔ ∃ r ∈ extractErrors logs, r.message = m)
      ∧ ((analyzeErrorPatterns logs).map ErrorPattern.frequency).sum
          = (extractErrors logs).length
      ∧ List.Pairwise (fun a b => b.frequency ≤ a.frequency) (analyzeErrorPatterns logs)
      ∧ (∀ c : Nat,
          ((analyzeErrorPatterns logs).filter (fun p => p.frequency == c)).map
              ErrorPattern.message
            = (firstSeen ((extractErrors logs).map ErrRecord.message)).filter
                (fun m => msgCount (extractErrors logs) m == c))
      ∧ ((∀ l ∈ logs, '\n' ∉ l.toList) →
          (extractErrors logs).length
            = logs.countP (fun l => (segMatch l.toList).isSome)) := by
  intro logs
  rw [analyzeErrorPatterns_eq]
  have hperm := perm_sortByFreq (groupRecs (extractErrors logs))
  have hmapmsg : (groupRecs (extractErrors logs)).map ErrorPattern.message
      = firstSeen ((extractErrors logs).map ErrRecord.message) := by
    unfold groupRecs
    rw [List.map_map]
    exact List.map_id _
  refine ⟨?_, ?_, ?_, ?_, sorted_sortByFreq _, ?_, extractErrors_length_no_newline logs⟩
  · exact ((hperm.map _).nodup_iff).mpr (hmapmsg ▸ nodup_firstSeen _)
  · intro p hp
    have hg := hperm.mem_iff.mp hp
    unfold groupRecs at hg
    rcases List.mem_map.mp hg with ⟨m, _, rfl⟩
    exact ⟨rfl, rfl⟩
  · intro m
    constructor
    · rintro ⟨p, hp, rfl⟩
      have hg := hperm.mem_iff.mp hp
      unfold groupRecs at hg
      rcases List.mem_map.mp hg with ⟨m', hm', rfl⟩
      rcases List.mem_map.mp (mem_firstSeen.mp hm') with ⟨r, hr, hrm⟩
      exact ⟨r, hr, hrm⟩
    · rintro ⟨r, hr, rfl⟩
      have hk : r.message ∈ firstSeen ((extractErrors logs).map ErrRecord.message) :=
        mem_firstSeen.mpr (List.mem_map_of_mem _ hr)
      refine ⟨⟨r.message, msgCount (extractErrors logs) r.message,
        firstLevelOf (extractErrors logs) r.message⟩, ?_, rfl⟩
      refine hperm.mem_iff.mpr ?_
      unfold groupRecs
      exact List.mem_map_of_mem _ hk
  · have h1 : ((sortByFreq (groupRecs (extractErrors logs))).map ErrorPattern.frequency).sum
        = ((groupRecs (extractErrors logs)).map ErrorPattern.frequency).sum :=
      (hperm.map _).sum_eq
    rw [h1]
    have h2 : (groupRecs (extractErrors logs)).map ErrorPattern.frequency
        = (firstSeen ((extractErrors logs).map ErrRecord.message)).map
            (msgCount (extractErrors logs)) := by
      unfold groupRecs
      rw [List.map_map]
      rfl
    rw [h2]
    refine sum_msgCounts _ _ (nodup_firstSeen _) ?_
    intro r hr
    exact mem_firstSeen.mpr (List.mem_map_of_mem _ hr)
  · intro c
    rw [filter_sortByFreq]
    unfold groupRecs
    rw [List.filter_map, List.map_map]
    have hcomp : (ErrorPattern.message ∘ fun m =>
        (⟨m, msgCount (extractErrors logs) m, firstLevelOf (extractErrors logs) m⟩ :
          ErrorPattern)) = id := rfl
    have hpred : ((fun p : ErrorPattern => p.frequency == c) ∘ fun m =>
        (⟨m, msgCount (extractErrors logs) m, firstLevelOf (extractErrors logs) m⟩ :
          ErrorPattern)) = fun m => msgCount (extractErrors logs) m == c := rfl
    rw [hcomp, hpred, List.map_id]

/-- C8 (witness): on the concrete demo logs (newline-free lines) the
extracted-match count equals the number of matched lines, by the grouping
theorem. -/
theorem C8_error_pattern_grouping_witness :
    (extractErrors c8DemoLogs).length
      = c8DemoLogs.countP (fun l => (segMatch l.toList).isSome) :=
  (C8_error_pattern_grouping c8DemoLogs).2.2.2.2.2.2 (by decide)

end ClaimChecks
